import Mathlib

/-
  Verification of the omnivault-keyring provider.

  The Go package `keyring` adapts an OS credential store (via
  zalando/go-keyring) to the omnivault `vault.Vault` interface.  The
  development below is a shallow embedding of that package:

  * the native store is an association list from keys to text values,
    together with a per-call fault oracle that decides whether each
    native get/set/delete call fails (and with which error), mirroring
    the fallible `zkeyring.Get/Set/Delete` calls;
  * every provider operation returns its result, the new native state,
    the trace of native calls it performed, and the list of
    `OnIndexError` callback invocations it triggered;
  * the envelope codec (JSON serialization of `vault.Secret` and of the
    `[]string` index) lives in the external omnivault module and in
    Go's `encoding/json`, so it is modelled from the spec as an
    injective self-describing text format with a total encoder and a
    partial decoder; parse failure on non-envelope text is what drives
    the plain-value fallback in `Get`.
-/

namespace Keyring

/-- Errors of the native keyring layer (`zkeyring.ErrNotFound` and any
other backend error, abstracted by a message). -/
inductive ZErr
  | notFound
  | other (msg : String)
deriving DecidableEq, Repr

/-- Cause attached to an index-error callback invocation: a native
store error or a decode failure of the stored index blob. -/
inductive Cause
  | native (e : ZErr)
  | jsonDecode
deriving DecidableEq, Repr

/-- One `OnIndexError` callback invocation: operation tag and cause. -/
abbrev Event := String × Cause

/-- A native-store access performed by an operation. -/
inductive NativeOp
  | get (key : String)
  | set (key : String)
  | del (key : String)
deriving DecidableEq, Repr

/-- The native store contents: an association list from keys to stored
text values (first binding wins on lookup). -/
abbrev Native := List (String × String)

/-- Per-call fault oracle: for each key, whether the native get/set/
delete call fails and with which error.  `none` means the call behaves
honestly (succeeds, or reports not-found when the entry is absent). -/
structure Oracle where
  getErr : String → Option ZErr
  setErr : String → Option ZErr
  delErr : String → Option ZErr

/-- Lookup of a key in the native store. -/
def lookupEntry : Native → String → Option String
  | [], _ => none
  | (k, w) :: rest, key => if k = key then some w else lookupEntry rest key

/-- Store a value under a key (overwrite the first binding, else append). -/
def setEntry : Native → String → String → Native
  | [], key, v => [(key, v)]
  | (k, w) :: rest, key, v =>
      if k = key then (key, v) :: rest else (k, w) :: setEntry rest key v

/-- Remove every binding of a key from the native store. -/
def removeEntry (st : Native) (key : String) : Native :=
  st.filter (fun e => decide (e.1 ≠ key))

/-- Model of `zkeyring.Get`: fails as the oracle dictates, otherwise returns the
stored value or reports not-found. -/
def zGet (o : Oracle) (st : Native) (key : String) : Except ZErr String :=
  match o.getErr key with
  | some e => .error e
  | none =>
    match lookupEntry st key with
    | some v => .ok v
    | none => .error .notFound

/-- Model of `zkeyring.Set`: fails as the oracle dictates, otherwise stores. -/
def zSet (o : Oracle) (st : Native) (key v : String) : Except ZErr Native :=
  match o.setErr key with
  | some e => .error e
  | none => .ok (setEntry st key v)

/-- Model of `zkeyring.Delete`: fails as the oracle dictates, otherwise removes
the entry or reports not-found when it is absent. -/
def zDel (o : Oracle) (st : Native) (key : String) : Except ZErr Native :=
  match o.delErr key with
  | some e => .error e
  | none =>
    match lookupEntry st key with
    | some _ => .ok (removeEntry st key)
    | none => .error .notFound

/-- Secret metadata (`vault.Metadata`): provider name, storage path and
free-form tags. -/
structure Metadata where
  provider : String
  path : String
  tags : List (String × String)
deriving DecidableEq, Repr

/-- A secret (`vault.Secret`): primary value, field map, metadata. -/
structure Secret where
  value : String
  fields : List (String × String)
  metadata : Metadata
deriving DecidableEq, Repr

/-- Cause carried by a `vault.VaultError`. -/
inductive VaultCause
  | closedErr
  | secretNotFound
  | backend (e : ZErr)
deriving DecidableEq, Repr

/-- Model of `vault.VaultError`: operation name, path, provider name, cause. -/
structure VaultError where
  op : String
  path : String
  provider : String
  cause : VaultCause
deriving DecidableEq, Repr

/-- Provider configuration (`keyring.Config`): service name, structured
format flag, and whether an `OnIndexError` callback is installed. -/
structure Config where
  serviceName : String
  jsonFormat : Bool
  onIndexError : Bool
deriving DecidableEq, Repr

/-- Model of `keyring.DefaultServiceName`. -/
def DefaultServiceName : String := "omnivault"

/-- Model of `keyring.indexKey`: the reserved key storing the index. -/
def indexKey : String := "__omnivault_index__"

/-- The provider (`keyring.Provider`): configuration and closed flag. -/
structure Provider where
  config : Config
  closed : Bool
deriving DecidableEq, Repr

/-- Model of `keyring.New`: defaults the service name when empty. -/
def New (config : Config) : Provider :=
  if config.serviceName = "" then
    { config := { config with serviceName := DefaultServiceName }, closed := false }
  else
    { config := config, closed := false }

/-- Model of `Provider.Name`. -/
def Provider.name (_ : Provider) : String := "keyring"

/-! ### Envelope codec

Modelled from the spec: the structured serialization of a secret and the
serialization of the index list are performed by Go's `encoding/json` on
the external `vault.Secret` type and on `[]string`; that code is not in
this repository.  Per the spec, structured `encode` "serializes the full
Secret (primary value, fields, metadata tags) to a self-describing
structured text form", `decode` attempts to parse that form, and the
index is "a serialized list of strings".  The model uses an injective
self-describing text format: a string is length-prefixed in unary
(`n` letters `l`, then `:`, then the `n` characters), a pair list is
count-prefixed in unary with terminator `;`, and envelopes carry a
distinguishing header, so that decoding is a partial inverse of encoding
and fails on ordinary plain text. -/

/-- Encode one string, unary-length-prefixed. -/
def encStrC (s : String) : List Char :=
  List.replicate s.data.length 'l' ++ ':' :: s.data

/-- Decode one string: count leading `l`s, expect `:`, take that many
characters. -/
def readStrC (cs : List Char) : Option (String × List Char) :=
  let n := (cs.takeWhile (fun c => c == 'l')).length
  match cs.drop n with
  | ':' :: rest =>
      if n ≤ rest.length then some (String.mk (rest.take n), rest.drop n)
      else none
  | _ => none

/-- Encode a list of string pairs: unary count, `;`, then the pairs. -/
def encPairsC (ps : List (String × String)) : List Char :=
  List.replicate ps.length 'l' ++ ';' ::
    ps.foldr (fun p acc => encStrC p.1 ++ encStrC p.2 ++ acc) []

/-- Decode `n` string pairs. -/
def readPairsAuxC : Nat → List Char → Option (List (String × String) × List Char)
  | 0, cs => some ([], cs)
  | n + 1, cs =>
    (readStrC cs).bind fun kc =>
      (readStrC kc.2).bind fun vc =>
        (readPairsAuxC n vc.2).bind fun rc =>
          some ((kc.1, vc.1) :: rc.1, rc.2)

/-- Decode a list of string pairs: unary count, `;`, then the pairs. -/
def readPairsC (cs : List Char) : Option (List (String × String) × List Char) :=
  let n := (cs.takeWhile (fun c => c == 'l')).length
  match cs.drop n with
  | ';' :: rest => readPairsAuxC n rest
  | _ => none

/-- Encode a list of strings: unary count, `;`, then the strings. -/
def encListC (ks : List String) : List Char :=
  List.replicate ks.length 'l' ++ ';' ::
    ks.foldr (fun k acc => encStrC k ++ acc) []

/-- Decode `n` strings. -/
def readListAuxC : Nat → List Char → Option (List String × List Char)
  | 0, cs => some ([], cs)
  | n + 1, cs =>
    (readStrC cs).bind fun kc =>
      (readListAuxC n kc.2).bind fun rc =>
        some (kc.1 :: rc.1, rc.2)

/-- Decode a list of strings: unary count, `;`, then the strings. -/
def readListC (cs : List Char) : Option (List String × List Char) :=
  let n := (cs.takeWhile (fun c => c == 'l')).length
  match cs.drop n with
  | ';' :: rest => readListAuxC n rest
  | _ => none

/-- Modelled from the spec: `json.Marshal` of a `vault.Secret` —
serializes primary value, field map and metadata tags into a
self-describing envelope with header `(S`, and never fails for a secret
(strings and string maps are always serializable). -/
def marshalSecret (s : Secret) : List Char :=
  '(' :: 'S' ::
    (encStrC s.value ++ encPairsC s.fields ++ encPairsC s.metadata.tags ++ [')'])

/-- Modelled from the spec: `json.Unmarshal` of stored text into a
`vault.Secret` — succeeds exactly on well-formed envelopes, returning
primary value, fields and metadata tags. -/
def unmarshalSecret (t : String) : Option (String × List (String × String) × List (String × String)) :=
  match t.data with
  | c1 :: c2 :: cs =>
    if c1 = '(' ∧ c2 = 'S' then
      (readStrC cs).bind fun vc =>
        (readPairsC vc.2).bind fun fc =>
          (readPairsC fc.2).bind fun tc =>
            if tc.2 = [')'] then some (vc.1, fc.1, tc.1) else none
    else none
  | _ => none

/-- Modelled from the spec: `json.Marshal` of the `[]string` index. -/
def marshalIndex (ks : List String) : String :=
  String.mk ('(' :: 'I' :: (encListC ks ++ [')']))

/-- Modelled from the spec: `json.Unmarshal` of stored text into the
`[]string` index. -/
def unmarshalIndex (t : String) : Option (List String) :=
  match t.data with
  | c1 :: c2 :: cs =>
    if c1 = '(' ∧ c2 = 'I' then
      (readListC cs).bind fun kc =>
        if kc.2 = [')'] then some kc.1 else none
    else none
  | _ => none

/-! ### Codec round-trip lemmas -/

theorem takeWhile_replicate_sep (n : Nat) (c : Char) (t : List Char)
    (hc : (c == 'l') = false) :
    (List.replicate n 'l' ++ c :: t).takeWhile (fun x => x == 'l') =
      List.replicate n 'l' := by
  induction n with
  | zero => simp [List.takeWhile, hc]
  | succ n ih => simp [List.replicate_succ, List.takeWhile, ih]

theorem readStrC_enc (s : String) (rest : List Char) :
    readStrC (encStrC s ++ rest) = some (s, rest) := by
  have h1 : ((List.replicate s.data.length 'l' ++ ':' :: (s.data ++ rest)).takeWhile
      (fun c => c == 'l')) = List.replicate s.data.length 'l' :=
    takeWhile_replicate_sep _ _ _ (by decide)
  have h2 : (List.replicate s.data.length 'l' ++ ':' :: (s.data ++ rest)).drop
      s.data.length = ':' :: (s.data ++ rest) := by
    exact List.drop_left' (by simp)
  unfold readStrC encStrC
  rw [List.append_assoc, List.cons_append]
  simp only [h1, List.length_replicate, h2, List.length_append,
    Nat.le_add_right, if_pos, List.take_left, List.drop_left]

theorem readPairsAuxC_enc (ps : List (String × String)) (rest : List Char) :
    readPairsAuxC ps.length
      (ps.foldr (fun p acc => encStrC p.1 ++ encStrC p.2 ++ acc) [] ++ rest) =
      some (ps, rest) := by
  induction ps with
  | nil => simp [readPairsAuxC]
  | cons p ps ih =>
    simp only [List.foldr_cons, List.length_cons]
    revert ih
    generalize List.foldr (fun p acc => encStrC p.1 ++ encStrC p.2 ++ acc)
      ([] : List Char) ps = F
    intro ih
    simp [readPairsAuxC, List.append_assoc, readStrC_enc, ih]

theorem readPairsC_enc (ps : List (String × String)) (rest : List Char) :
    readPairsC (encPairsC ps ++ rest) = some (ps, rest) := by
  have h1 : ((List.replicate ps.length 'l' ++ ';' ::
      (ps.foldr (fun p acc => encStrC p.1 ++ encStrC p.2 ++ acc) [] ++ rest)).takeWhile
      (fun c => c == 'l')) = List.replicate ps.length 'l' :=
    takeWhile_replicate_sep _ _ _ (by decide)
  have h2 : (List.replicate ps.length 'l' ++ ';' ::
      (ps.foldr (fun p acc => encStrC p.1 ++ encStrC p.2 ++ acc) [] ++ rest)).drop
      ps.length = ';' ::
      (ps.foldr (fun p acc => encStrC p.1 ++ encStrC p.2 ++ acc) [] ++ rest) := by
    exact List.drop_left' (by simp)
  unfold readPairsC encPairsC
  rw [List.append_assoc, List.cons_append]
  simp only [h1, List.length_replicate, h2]
  exact readPairsAuxC_enc ps rest

theorem readListAuxC_enc (ks : List String) (rest : List Char) :
    readListAuxC ks.length
      (ks.foldr (fun k acc => encStrC k ++ acc) [] ++ rest) = some (ks, rest) := by
  induction ks with
  | nil => simp [readListAuxC]
  | cons k ks ih =>
    simp only [List.foldr_cons, List.length_cons]
    revert ih
    generalize List.foldr (fun k acc => encStrC k ++ acc) ([] : List Char) ks = F
    intro ih
    simp [readListAuxC, List.append_assoc, readStrC_enc, ih]

theorem readListC_enc (ks : List String) (rest : List Char) :
    readListC (encListC ks ++ rest) = some (ks, rest) := by
  have h1 : ((List.replicate ks.length 'l' ++ ';' ::
      (ks.foldr (fun k acc => encStrC k ++ acc) [] ++ rest)).takeWhile
      (fun c => c == 'l')) = List.replicate ks.length 'l' :=
    takeWhile_replicate_sep _ _ _ (by decide)
  have h2 : (List.replicate ks.length 'l' ++ ';' ::
      (ks.foldr (fun k acc => encStrC k ++ acc) [] ++ rest)).drop
      ks.length = ';' :: (ks.foldr (fun k acc => encStrC k ++ acc) [] ++ rest) := by
    exact List.drop_left' (by simp)
  unfold readListC encListC
  rw [List.append_assoc, List.cons_append]
  simp only [h1, List.length_replicate, h2]
  exact readListAuxC_enc ks rest

/-- Structured-codec round trip: decoding an encoded secret recovers its
primary value, fields and tags. -/
theorem unmarshalSecret_marshalSecret (s : Secret) :
    unmarshalSecret (String.mk (marshalSecret s)) =
      some (s.value, s.fields, s.metadata.tags) := by
  unfold unmarshalSecret marshalSecret
  simp [readStrC_enc, readPairsC_enc]

/-- Index-codec round trip: decoding an encoded index recovers it. -/
theorem unmarshalIndex_marshalIndex (ks : List String) :
    unmarshalIndex (marshalIndex ks) = some ks := by
  unfold unmarshalIndex marshalIndex
  simp [readListC_enc]

/-! ### Provider operations

Each operation returns its result together with the new native state,
the trace of native-store calls performed, and the `OnIndexError`
callback invocations triggered. -/

/-- Decidable equality of operation results, for concrete evaluation. -/
instance {ε α : Type} [DecidableEq ε] [DecidableEq α] : DecidableEq (Except ε α) :=
  fun a b =>
    match a, b with
    | .ok x, .ok y =>
      match decEq x y with
      | .isTrue h => .isTrue (by rw [h])
      | .isFalse h => .isFalse fun hh => h (Except.ok.inj hh)
    | .error x, .error y =>
      match decEq x y with
      | .isTrue h => .isTrue (by rw [h])
      | .isFalse h => .isFalse fun hh => h (Except.error.inj hh)
    | .ok _, .error _ => .isFalse fun hh => Except.noConfusion hh
    | .error _, .ok _ => .isFalse fun hh => Except.noConfusion hh

/-- Result of one provider operation. -/
structure OpResult (α : Type) where
  res : Except VaultError α
  native : Native
  trace : List NativeOp
  events : List Event
deriving Repr

/-- Model of `Provider.reportIndexError`: invoke the callback when configured,
drop the report otherwise. -/
def reportIndexError (p : Provider) (op : String) (e : Cause) : List Event :=
  if p.config.onIndexError then [(op, e)] else []

/-- Model of `Provider.loadIndex`: read and decode the reserved index entry;
absence and every failure yield the empty index, failures other than
not-found are reported through the callback. -/
def Provider.loadIndexOp (p : Provider) (o : Oracle) (st : Native) :
    List String × List NativeOp × List Event :=
  match zGet o st indexKey with
  | .error e =>
    if e = .notFound then ([], [.get indexKey], [])
    else ([], [.get indexKey], reportIndexError p "load" (.native e))
  | .ok v =>
    match unmarshalIndex v with
    | some idx => (idx, [.get indexKey], [])
    | none => ([], [.get indexKey], reportIndexError p "unmarshal" .jsonDecode)

/-- Model of `Provider.saveIndex`: encode and write the index under the reserved
key; a write failure is reported through the callback (the modelled
encoder is total, so the `marshal` branch of the source cannot fire). -/
def Provider.saveIndexOp (p : Provider) (o : Oracle) (st : Native) (idx : List String) :
    Native × List NativeOp × List Event :=
  match zSet o st indexKey (marshalIndex idx) with
  | .ok st1 => (st1, [.set indexKey], [])
  | .error e => (st, [.set indexKey], reportIndexError p "save" (.native e))

/-- Model of `Provider.addToIndex`: no-op when the key is already present,
otherwise append it and persist. -/
def Provider.addToIndexOp (p : Provider) (o : Oracle) (st : Native) (key : String) :
    Native × List NativeOp × List Event :=
  let li := p.loadIndexOp o st
  if key ∈ li.1 then (st, li.2.1, li.2.2)
  else
    let sv := p.saveIndexOp o st (li.1 ++ [key])
    (sv.1, li.2.1 ++ sv.2.1, li.2.2 ++ sv.2.2)

/-- Model of `Provider.removeFromIndex`: filter out every occurrence of the key
and persist unconditionally. -/
def Provider.removeFromIndexOp (p : Provider) (o : Oracle) (st : Native) (key : String) :
    Native × List NativeOp × List Event :=
  let li := p.loadIndexOp o st
  let sv := p.saveIndexOp o st (li.1.filter (fun k => decide (k ≠ key)))
  (sv.1, li.2.1 ++ sv.2.1, li.2.2 ++ sv.2.2)

/-- Model of `Provider.Get`: reject when closed; map native not-found to
`SecretNotFound` and other native failures to a backend error; decode
the stored text (structured decoding falls back to the plain value on
parse failure) and stamp the metadata provider and path. -/
def Provider.get (p : Provider) (o : Oracle) (st : Native) (path : String) :
    OpResult Secret :=
  if p.closed then
    ⟨.error ⟨"Get", path, p.name, .closedErr⟩, st, [], []⟩
  else
    match zGet o st path with
    | .error .notFound =>
      ⟨.error ⟨"Get", path, p.name, .secretNotFound⟩, st, [.get path], []⟩
    | .error e =>
      ⟨.error ⟨"Get", path, p.name, .backend e⟩, st, [.get path], []⟩
    | .ok v =>
      let s : Secret :=
        if p.config.jsonFormat then
          match unmarshalSecret v with
          | some (val, fs, tg) => ⟨val, fs, ⟨p.name, path, tg⟩⟩
          | none => ⟨v, [], ⟨p.name, path, []⟩⟩
        else ⟨v, [], ⟨p.name, path, []⟩⟩
      ⟨.ok s, st, [.get path], []⟩

/-- Model of `Provider.Set`: reject when closed; encode the secret (structured
envelope, or the plain primary value — per the spec, plain `encode`
returns the primary value verbatim); write it; on success update the
index unless the path is the reserved key. -/
def Provider.set (p : Provider) (o : Oracle) (st : Native) (path : String) (s : Secret) :
    OpResult Unit :=
  if p.closed then
    ⟨.error ⟨"Set", path, p.name, .closedErr⟩, st, [], []⟩
  else
    let value := if p.config.jsonFormat then String.mk (marshalSecret s) else s.value
    match zSet o st path value with
    | .error e =>
      ⟨.error ⟨"Set", path, p.name, .backend e⟩, st, [.set path], []⟩
    | .ok st1 =>
      if path = indexKey then ⟨.ok (), st1, [.set path], []⟩
      else
        let ad := p.addToIndexOp o st1 path
        ⟨.ok (), ad.1, .set path :: ad.2.1, ad.2.2⟩

/-- Model of `Provider.Delete`: reject when closed; treat native not-found as
success (idempotent delete, no index maintenance in that case); map
other native failures to a backend error; on success update the index
unless the path is the reserved key. -/
def Provider.delete (p : Provider) (o : Oracle) (st : Native) (path : String) :
    OpResult Unit :=
  if p.closed then
    ⟨.error ⟨"Delete", path, p.name, .closedErr⟩, st, [], []⟩
  else
    match zDel o st path with
    | .error .notFound => ⟨.ok (), st, [.del path], []⟩
    | .error e =>
      ⟨.error ⟨"Delete", path, p.name, .backend e⟩, st, [.del path], []⟩
    | .ok st1 =>
      if path = indexKey then ⟨.ok (), st1, [.del path], []⟩
      else
        let rm := p.removeFromIndexOp o st1 path
        ⟨.ok (), rm.1, .del path :: rm.2.1, rm.2.2⟩

/-- Model of `Provider.Exists`: reject when closed; probe with a native read;
not-found maps to `false` without error, other failures to a backend
error. -/
def Provider.existsOp (p : Provider) (o : Oracle) (st : Native) (path : String) :
    OpResult Bool :=
  if p.closed then
    ⟨.error ⟨"Exists", path, p.name, .closedErr⟩, st, [], []⟩
  else
    match zGet o st path with
    | .error .notFound => ⟨.ok false, st, [.get path], []⟩
    | .error e =>
      ⟨.error ⟨"Exists", path, p.name, .backend e⟩, st, [.get path], []⟩
    | .ok _ => ⟨.ok true, st, [.get path], []⟩

/-- Model of `Provider.List`: reject when closed; load the index and keep the
keys beginning with the requested text, in index order. -/
def Provider.list (p : Provider) (o : Oracle) (st : Native) (pre : String) :
    OpResult (List String) :=
  if p.closed then
    ⟨.error ⟨"List", pre, p.name, .closedErr⟩, st, [], []⟩
  else
    let li := p.loadIndexOp o st
    ⟨.ok (li.1.filter (fun key => pre.data.isPrefixOf key.data)), st, li.2.1, li.2.2⟩

/-- Model of `Provider.Close`: set the closed flag and report success. -/
def Provider.close (p : Provider) : Provider × Except VaultError Unit :=
  ({ p with closed := true }, .ok ())

/-! ### Operation sequences -/

/-- A caller-visible provider operation. -/
inductive Op
  | get (path : String)
  | set (path : String) (s : Secret)
  | del (path : String)
  | exi (path : String)
  | list (pre : String)
  | close

/-- Provider plus native-store state, for running operation sequences. -/
structure SysState where
  prov : Provider
  native : Native

/-- Execute one operation (with its own fault oracle) on the combined
state, keeping only the state. -/
def stepOp (sigma : SysState) (x : Op × Oracle) : SysState :=
  match x.1 with
  | .get path => { sigma with native := (sigma.prov.get x.2 sigma.native path).native }
  | .set path s => { sigma with native := (sigma.prov.set x.2 sigma.native path s).native }
  | .del path => { sigma with native := (sigma.prov.delete x.2 sigma.native path).native }
  | .exi path => { sigma with native := (sigma.prov.existsOp x.2 sigma.native path).native }
  | .list pre => { sigma with native := (sigma.prov.list x.2 sigma.native pre).native }
  | .close => { sigma with prov := (sigma.prov.close).1 }

/-- Execute a sequence of operations. -/
def runOps (sigma : SysState) (xs : List (Op × Oracle)) : SysState :=
  xs.foldl stepOp sigma

/-! ### Spec-side descriptions

These definitions restate, in the spec's vocabulary, what the index
subsystem is supposed to yield; the theorems below relate them to the
operations. -/

/-- The index the provider observes when loading: empty when the entry
is absent, unreadable or the native read fails. -/
def loadedIndex (o : Oracle) (st : Native) : List String :=
  match o.getErr indexKey with
  | some _ => []
  | none =>
    match lookupEntry st indexKey with
    | none => []
    | some v => (unmarshalIndex v).getD []

/-- The decoded content of the persisted index entry. -/
def decodedIndex (st : Native) : List String :=
  match lookupEntry st indexKey with
  | none => []
  | some v => (unmarshalIndex v).getD []

/-- The callback report an index load produces: a `load` report when
the native read fails with something other than not-found, an
`unmarshal` report when the stored entry does not decode. -/
def loadFailureEvents (o : Oracle) (st : Native) : List Event :=
  match o.getErr indexKey with
  | some ZErr.notFound => []
  | some e => [("load", Cause.native e)]
  | none =>
    match lookupEntry st indexKey with
    | none => []
    | some v =>
      match unmarshalIndex v with
      | some _ => []
      | none => [("unmarshal", Cause.jsonDecode)]

/-- The callback report an index save produces: a `save` report exactly
when the native write of the reserved entry fails. -/
def saveFailureEvents (o : Oracle) : List Event :=
  match o.setErr indexKey with
  | some e => [("save", Cause.native e)]
  | none => []

/-! ### Native-store lemmas -/

theorem lookupEntry_setEntry_self (st : Native) (key v : String) :
    lookupEntry (setEntry st key v) key = some v := by
  induction st with
  | nil => simp [setEntry, lookupEntry]
  | cons e rest ih =>
    by_cases h : e.1 = key
    · simp [setEntry, h, lookupEntry]
    · simp [setEntry, h, lookupEntry, ih]

theorem lookupEntry_setEntry_ne (st : Native) (key v q : String) (h : q ≠ key) :
    lookupEntry (setEntry st key v) q = lookupEntry st q := by
  have hk : key ≠ q := fun hh => h hh.symm
  induction st with
  | nil => simp [setEntry, lookupEntry, hk]
  | cons e rest ih =>
    by_cases h1 : e.1 = key
    · simp [setEntry, h1, lookupEntry, hk]
    · simp [setEntry, h1, lookupEntry, ih]

theorem lookupEntry_removeEntry_ne (st : Native) (key q : String) (h : q ≠ key) :
    lookupEntry (removeEntry st key) q = lookupEntry st q := by
  have hk : ¬key = q := fun hh => h hh.symm
  induction st with
  | nil => simp [removeEntry, lookupEntry]
  | cons e rest ih =>
    by_cases h1 : e.1 = key
    · simpa [removeEntry, List.filter_cons, h1, lookupEntry, hk] using ih
    · by_cases h2 : e.1 = q
      · simp [removeEntry, List.filter_cons, h1, lookupEntry, h2, h]
      · simpa [removeEntry, List.filter_cons, h1, lookupEntry, h2] using ih

theorem lookupEntry_removeEntry_self (st : Native) (key : String) :
    lookupEntry (removeEntry st key) key = none := by
  induction st with
  | nil => simp [removeEntry, lookupEntry]
  | cons e rest ih =>
    by_cases h1 : e.1 = key
    · simpa [removeEntry, List.filter_cons, h1] using ih
    · simpa [removeEntry, List.filter_cons, h1, lookupEntry] using ih

/-! ### Index-subsystem lemmas -/

/-- The index load yields the spec-side loaded index, touches the native
store exactly once (a read of the reserved entry), and reports exactly
the load failures — only when a callback is configured. -/
theorem loadIndexOp_spec (p : Provider) (o : Oracle) (st : Native) :
    p.loadIndexOp o st =
      (loadedIndex o st, [NativeOp.get indexKey],
        if p.config.onIndexError then loadFailureEvents o st else []) := by
  unfold Provider.loadIndexOp loadedIndex loadFailureEvents zGet reportIndexError
  cases hg : o.getErr indexKey with
  | some e =>
    cases e with
    | notFound => simp
    | other m => simp
  | none =>
    cases hl : lookupEntry st indexKey with
    | none => simp
    | some v =>
      cases hu : unmarshalIndex v with
      | none => simp [hu]
      | some idx => simp [hu]

/-- The index save writes the encoded index under the reserved key when
the native write succeeds, leaves the store unchanged when it fails,
touches the native store exactly once, and reports exactly the save
failures — only when a callback is configured. -/
theorem saveIndexOp_spec (p : Provider) (o : Oracle) (st : Native) (idx : List String) :
    p.saveIndexOp o st idx =
      ((match o.setErr indexKey with
        | none => setEntry st indexKey (marshalIndex idx)
        | some _ => st),
       [NativeOp.set indexKey],
       if p.config.onIndexError then saveFailureEvents o else []) := by
  unfold Provider.saveIndexOp saveFailureEvents zSet reportIndexError
  cases hs : o.setErr indexKey with
  | some e => simp
  | none => simp

/-- Index maintenance never touches native entries other than the
reserved one: `addToIndex` preserves every other lookup. -/
theorem addToIndexOp_lookup_ne (p : Provider) (o : Oracle) (st : Native)
    (key q : String) (h : q ≠ indexKey) :
    lookupEntry (p.addToIndexOp o st key).1 q = lookupEntry st q := by
  unfold Provider.addToIndexOp
  simp only [loadIndexOp_spec, saveIndexOp_spec]
  by_cases hm : key ∈ loadedIndex o st
  · simp [hm]
  · cases hs : o.setErr indexKey with
    | none => simp [hm, hs, lookupEntry_setEntry_ne st indexKey _ q h]
    | some e => simp [hm, hs]

/-- Index maintenance never touches native entries other than the
reserved one: `removeFromIndex` preserves every other lookup. -/
theorem removeFromIndexOp_lookup_ne (p : Provider) (o : Oracle) (st : Native)
    (key q : String) (h : q ≠ indexKey) :
    lookupEntry (p.removeFromIndexOp o st key).1 q = lookupEntry st q := by
  unfold Provider.removeFromIndexOp
  simp only [loadIndexOp_spec, saveIndexOp_spec]
  cases hs : o.setErr indexKey with
  | none => simp [hs, lookupEntry_setEntry_ne st indexKey _ q h]
  | some e => simp [hs]

/-- What an open provider's `List` yields: the loaded index filtered by
the prefix test, with a single native read of the reserved entry. -/
theorem list_spec (p : Provider) (o : Oracle) (st : Native) (pre : String)
    (hopen : p.closed = false) :
    p.list o st pre =
      ⟨.ok ((loadedIndex o st).filter (fun key => pre.data.isPrefixOf key.data)),
       st, [NativeOp.get indexKey],
       if p.config.onIndexError then loadFailureEvents o st else []⟩ := by
  unfold Provider.list
  simp only [loadIndexOp_spec]
  simp [hopen]

/-- The loaded index is either the decoded persisted index or empty
(when the native read fails). -/
theorem loadedIndex_eq_or_nil (o : Oracle) (st : Native) :
    loadedIndex o st = decodedIndex st ∨ loadedIndex o st = [] := by
  unfold loadedIndex decodedIndex
  cases o.getErr indexKey with
  | some e => right; rfl
  | none => left; rfl

/-- A fault-free oracle: every native call behaves honestly. -/
def honestOracle : Oracle := ⟨fun _ => none, fun _ => none, fun _ => none⟩

/-! ### Claims -/

/-- C3: every successful `Get` — in plain or structured mode, on any
stored value, including one written with caller-supplied metadata —
returns a secret whose `metadata.provider` is the provider name
`keyring` and whose `metadata.path` is the requested path; both are
stamped by the provider on read, never taken from stored caller input. -/
theorem c3_get_stamps_provider_and_path (p : Provider) (o : Oracle) (st : Native)
    (path : String) (s : Secret)
    (h : (p.get o st path).res = Except.ok s) :
    s.metadata.provider = "keyring" ∧ s.metadata.path = path := by
  unfold Provider.get at h
  by_cases hc : p.closed = true
  · simp [hc] at h
  · rw [Bool.not_eq_true] at hc
    cases hz : zGet o st path with
    | error e => cases e <;> simp [hc, hz] at h
    | ok v =>
      simp only [hc, Bool.false_eq_true, if_false, hz] at h
      cases hj : p.config.jsonFormat with
      | false =>
        simp only [hj, Bool.false_eq_true, if_false, Except.ok.injEq] at h
        subst h
        exact ⟨rfl, rfl⟩
      | true =>
        simp only [hj, if_true] at h
        cases hu : unmarshalSecret v with
        | none =>
          simp only [hu, Except.ok.injEq] at h
          subst h
          exact ⟨rfl, rfl⟩
        | some trip =>
          obtain ⟨val, fs, tg⟩ := trip
          simp only [hu, Except.ok.injEq] at h
          subst h
          exact ⟨rfl, rfl⟩

/-- C3 witness: a concrete successful read is stamped. -/
theorem c3_witness :
    (Provider.get ⟨⟨"svc", false, false⟩, false⟩ honestOracle [("k", "v")] "k").res =
      Except.ok ⟨"v", [], ⟨"keyring", "k", []⟩⟩ ∧
    (⟨"v", [], ⟨"keyring", "k", []⟩⟩ : Secret).metadata.provider = "keyring" ∧
    (⟨"v", [], ⟨"keyring", "k", []⟩⟩ : Secret).metadata.path = "k" :=
  ⟨by decide,
   c3_get_stamps_provider_and_path ⟨⟨"svc", false, false⟩, false⟩ honestOracle
     [("k", "v")] "k" ⟨"v", [], ⟨"keyring", "k", []⟩⟩ (by decide)⟩

/-- C7: on an open provider, `List` returns exactly the keys of the
loaded index whose text begins with the requested text, in the index's
stored order; the empty text matches every key; and the only native
access is the single read of the reserved index entry. -/
theorem c7_list_filters_loaded_index (p : Provider) (o : Oracle) (st : Native)
    (pre : String) (hopen : p.closed = false) :
    (p.list o st pre).res =
      Except.ok ((p.loadIndexOp o st).1.filter
        (fun key => pre.data.isPrefixOf key.data)) ∧
    (p.list o st pre).trace = [NativeOp.get indexKey] ∧
    (p.list o st pre).native = st ∧
    (p.list o st "").res = Except.ok (p.loadIndexOp o st).1 := by
  have hd : "".data = ([] : List Char) := rfl
  have hall : ∀ l : List Char, ("".data.isPrefixOf l) = true := fun l => by
    rw [hd]; simp
  rw [list_spec p o st pre hopen, list_spec p o st "" hopen, loadIndexOp_spec]
  refine ⟨rfl, rfl, rfl, ?_⟩
  simp [hall]

/-- C7 witness: listing a two-entry index with a matching prefix. -/
theorem c7_witness :
    (Provider.list ⟨⟨"svc", false, false⟩, false⟩ honestOracle
        [(indexKey, marshalIndex ["a/b", "c"])] "a/").res = Except.ok ["a/b"] ∧
    (Provider.list ⟨⟨"svc", false, false⟩, false⟩ honestOracle
        [(indexKey, marshalIndex ["a/b", "c"])] "").res = Except.ok ["a/b", "c"] := by
  have h := c7_list_filters_loaded_index ⟨⟨"svc", false, false⟩, false⟩ honestOracle
    [(indexKey, marshalIndex ["a/b", "c"])] "a/" rfl
  refine ⟨?_, ?_⟩
  · rw [h.1]; decide
  · rw [h.2.2.2]; decide

/-- C9: on an open provider, a `Delete` whose native delete reports the
entry as not found returns success (so two consecutive deletes of an
absent path both succeed), and any other native failure surfaces as a
backend error carrying the operation, path and provider names. -/
theorem c9_delete_notfound_is_success (p : Provider) (o : Oracle) (st : Native)
    (path : String) (e : ZErr) (hopen : p.closed = false) :
    (zDel o st path = .error .notFound →
      (p.delete o st path).res = Except.ok () ∧
      (p.delete o st path).native = st ∧
      (p.delete o (p.delete o st path).native path).res = Except.ok ()) ∧
    (zDel o st path = .error e → e ≠ .notFound →
      (p.delete o st path).res =
        Except.error ⟨"Delete", path, "keyring", .backend e⟩) := by
  constructor
  · intro hz
    have h1 : (p.delete o st path).res = Except.ok () ∧
        (p.delete o st path).native = st := by
      unfold Provider.delete
      simp [hopen, hz]
    refine ⟨h1.1, h1.2, ?_⟩
    rw [h1.2]
    exact h1.1
  · intro hz hne
    unfold Provider.delete
    cases e with
    | notFound => exact absurd rfl hne
    | other m => simp [hopen, hz, Provider.name]

/-- C9 witness: deleting an absent path twice succeeds, and an injected
backend fault surfaces as a backend error. -/
theorem c9_witness :
    (Provider.delete ⟨⟨"svc", false, false⟩, false⟩ honestOracle [] "gone").res =
      Except.ok () ∧
    (Provider.delete ⟨⟨"svc", false, false⟩, false⟩
      ⟨fun _ => none, fun _ => none, fun _ => some (.other "locked")⟩
      [] "gone").res =
        Except.error ⟨"Delete", "gone", "keyring", .backend (.other "locked")⟩ :=
  ⟨((c9_delete_notfound_is_success ⟨⟨"svc", false, false⟩, false⟩ honestOracle []
      "gone" (.other "locked") rfl).1 (by decide)).1,
   (c9_delete_notfound_is_success ⟨⟨"svc", false, false⟩, false⟩
      ⟨fun _ => none, fun _ => none, fun _ => some (.other "locked")⟩
      [] "gone" (.other "locked") rfl).2 (by decide) (by decide)⟩

/-- C10: a `Delete` that finds the native entry already absent returns
success without touching the index: the native state (hence the
persisted index) is unchanged, the only native access is the one delete
attempt, no callback fires, and a stale index entry for the path still
appears in a subsequent `List`. -/
theorem c10_delete_notfound_leaves_stale_index (p : Provider) (o o2 : Oracle)
    (st : Native) (path pre : String)
    (hopen : p.closed = false)
    (hnf : zDel o st path = .error .notFound) :
    (p.delete o st path).res = Except.ok () ∧
    (p.delete o st path).native = st ∧
    (p.delete o st path).trace = [NativeOp.del path] ∧
    (p.delete o st path).events = [] ∧
    (path ∈ loadedIndex o2 st → pre.data.isPrefixOf path.data = true →
      (p.list o2 (p.delete o st path).native pre).res =
        Except.ok ((loadedIndex o2 st).filter
          (fun key => pre.data.isPrefixOf key.data)) ∧
      path ∈ (loadedIndex o2 st).filter (fun key => pre.data.isPrefixOf key.data)) := by
  have hnat : (p.delete o st path).native = st ∧
      (p.delete o st path).res = Except.ok () ∧
      (p.delete o st path).trace = [NativeOp.del path] ∧
      (p.delete o st path).events = [] := by
    unfold Provider.delete
    simp [hopen, hnf]
  refine ⟨hnat.2.1, hnat.1, hnat.2.2.1, hnat.2.2.2, ?_⟩
  intro hm hp
  rw [hnat.1, list_spec p o2 st pre hopen]
  exact ⟨rfl, List.mem_filter.mpr ⟨hm, hp⟩⟩

/-- C10 witness: a stale index entry survives a not-found delete. -/
theorem c10_witness :
    (Provider.delete ⟨⟨"svc", false, false⟩, false⟩ honestOracle
        [(indexKey, marshalIndex ["stale"])] "stale").native =
      [(indexKey, marshalIndex ["stale"])] ∧
    "stale" ∈ (loadedIndex honestOracle [(indexKey, marshalIndex ["stale"])]).filter
      (fun key => "".data.isPrefixOf key.data) := by
  have h := c10_delete_notfound_leaves_stale_index ⟨⟨"svc", false, false⟩, false⟩
    honestOracle honestOracle [(indexKey, marshalIndex ["stale"])] "stale" "" rfl
    (by decide)
  exact ⟨h.2.1, (h.2.2.2.2 (by decide) (by decide)).2⟩

/-- C5: after the provider is closed, every operation fails with the
`Closed` error, performs no native access and leaves the native store
untouched; `Close` succeeds again and keeps the provider closed; and no
operation reopens a closed provider. -/
theorem c5_closed_state_rejection (p : Provider) (o : Oracle) (st : Native)
    (path pre : String) (s : Secret) (x : Op × Oracle)
    (hc : p.closed = true) :
    (p.get o st path).res = Except.error ⟨"Get", path, "keyring", .closedErr⟩ ∧
    (p.get o st path).trace = [] ∧ (p.get o st path).native = st ∧
    (p.set o st path s).res = Except.error ⟨"Set", path, "keyring", .closedErr⟩ ∧
    (p.set o st path s).trace = [] ∧ (p.set o st path s).native = st ∧
    (p.delete o st path).res = Except.error ⟨"Delete", path, "keyring", .closedErr⟩ ∧
    (p.delete o st path).trace = [] ∧ (p.delete o st path).native = st ∧
    (p.existsOp o st path).res = Except.error ⟨"Exists", path, "keyring", .closedErr⟩ ∧
    (p.existsOp o st path).trace = [] ∧ (p.existsOp o st path).native = st ∧
    (p.list o st pre).res = Except.error ⟨"List", pre, "keyring", .closedErr⟩ ∧
    (p.list o st pre).trace = [] ∧ (p.list o st pre).native = st ∧
    (p.close.2 = Except.ok () ∧ p.close.1.closed = true) ∧
    (stepOp ⟨p, st⟩ x).prov.closed = true := by
  obtain ⟨op, o2⟩ := x
  refine ⟨?_, ?_, ?_, ?_, ?_, ?_, ?_, ?_, ?_, ?_, ?_, ?_, ?_, ?_, ?_, ⟨rfl, rfl⟩, ?_⟩
  all_goals
    first
    | simp [Provider.get, Provider.set, Provider.delete, Provider.existsOp,
        Provider.list, Provider.name, hc]
    | cases op <;> simp [stepOp, Provider.close, hc]

/-- C5 witness: a concretely closed provider rejects a read without
touching the store and stays closed across a further operation. -/
theorem c5_witness :
    (Provider.get ⟨⟨"svc", false, false⟩, true⟩ honestOracle [("k", "v")] "k").res =
      Except.error ⟨"Get", "k", "keyring", .closedErr⟩ ∧
    (Provider.get ⟨⟨"svc", false, false⟩, true⟩ honestOracle [("k", "v")] "k").trace = [] ∧
    (stepOp ⟨⟨⟨"svc", false, false⟩, true⟩, [("k", "v")]⟩
      (Op.set "k" ⟨"w", [], ⟨"", "", []⟩⟩, honestOracle)).prov.closed = true := by
  have h := c5_closed_state_rejection ⟨⟨"svc", false, false⟩, true⟩ honestOracle
    [("k", "v")] "k" "" ⟨"w", [], ⟨"", "", []⟩⟩
    (Op.set "k" ⟨"w", [], ⟨"", "", []⟩⟩, honestOracle) rfl
  exact ⟨h.1, h.2.1, h.2.2.2.2.2.2.2.2.2.2.2.2.2.2.2.2⟩

/-- C4: with the structured format enabled, writing any secret and
reading it back (the native store returning the stored text unchanged)
reproduces the primary value and the field map exactly. -/
theorem c4_structured_roundtrip (p : Provider) (o : Oracle) (st : Native)
    (path : String) (s : Secret)
    (hj : p.config.jsonFormat = true)
    (hopen : p.closed = false)
    (hset : o.setErr path = none)
    (hget : o.getErr path = none) :
    (p.set o st path s).res = Except.ok () ∧
    (p.get o (p.set o st path s).native path).res =
      Except.ok ⟨s.value, s.fields, ⟨"keyring", path, s.metadata.tags⟩⟩ := by
  have hz : zSet o st path (String.mk (marshalSecret s)) =
      .ok (setEntry st path (String.mk (marshalSecret s))) := by
    unfold zSet
    rw [hset]
  have hlook : lookupEntry (p.set o st path s).native path =
      some (String.mk (marshalSecret s)) := by
    unfold Provider.set
    simp only [hopen, Bool.false_eq_true, if_false, hj, if_true, hz]
    by_cases hpk : path = indexKey
    · simp [hpk, lookupEntry_setEntry_self]
    · simp only [hpk, if_false, if_neg hpk]
      rw [addToIndexOp_lookup_ne p o _ path path hpk,
        lookupEntry_setEntry_self]
  have hres : (p.set o st path s).res = Except.ok () := by
    unfold Provider.set
    simp only [hopen, Bool.false_eq_true, if_false, hj, if_true, hz]
    by_cases hpk : path = indexKey <;> simp [hpk]
  refine ⟨hres, ?_⟩
  unfold Provider.get
  simp only [hopen, Bool.false_eq_true, if_false]
  unfold zGet
  rw [hget, hlook]
  simp [hj, unmarshalSecret_marshalSecret, Provider.name]

/-- C4 witness: a concrete structured round trip of a two-field secret. -/
theorem c4_witness :
    (Provider.set ⟨⟨"svc", true, false⟩, false⟩ honestOracle [] "db"
      ⟨"pw", [("user", "admin"), ("host", "h")], ⟨"", "", [("t", "u")]⟩⟩).res =
      Except.ok () ∧
    (Provider.get ⟨⟨"svc", true, false⟩, false⟩ honestOracle
      (Provider.set ⟨⟨"svc", true, false⟩, false⟩ honestOracle [] "db"
        ⟨"pw", [("user", "admin"), ("host", "h")], ⟨"", "", [("t", "u")]⟩⟩).native
      "db").res =
      Except.ok ⟨"pw", [("user", "admin"), ("host", "h")], ⟨"keyring", "db", [("t", "u")]⟩⟩ :=
  c4_structured_roundtrip ⟨⟨"svc", true, false⟩, false⟩ honestOracle [] "db"
    ⟨"pw", [("user", "admin"), ("host", "h")], ⟨"", "", [("t", "u")]⟩⟩
    rfl rfl rfl rfl

/-- C2 (amended): any text T stored under plain mode that does not parse
as a structured envelope reads back under structured mode with no error
as primary value T and empty fields. -/
theorem c2_plain_fallback_amended (p1 p2 : Provider) (o : Oracle) (st : Native)
    (path T : String) (fl : List (String × String)) (md : Metadata)
    (hplain : p1.config.jsonFormat = false)
    (hjson : p2.config.jsonFormat = true)
    (h1 : p1.closed = false) (h2 : p2.closed = false)
    (hu : unmarshalSecret T = none)
    (hset : o.setErr path = none) (hget : o.getErr path = none) :
    (p1.set o st path ⟨T, fl, md⟩).res = Except.ok () ∧
    (p2.get o (p1.set o st path ⟨T, fl, md⟩).native path).res =
      Except.ok ⟨T, [], ⟨"keyring", path, []⟩⟩ := by
  have hz : zSet o st path T = .ok (setEntry st path T) := by
    unfold zSet
    rw [hset]
  have henc : (if p1.config.jsonFormat then
      String.mk (marshalSecret ⟨T, fl, md⟩) else (⟨T, fl, md⟩ : Secret).value) = T := by
    rw [hplain]
    rfl
  have hlook : lookupEntry (p1.set o st path ⟨T, fl, md⟩).native path = some T := by
    unfold Provider.set
    simp only [h1, Bool.false_eq_true, if_false, henc, hz]
    by_cases hpk : path = indexKey
    · simp [hpk, lookupEntry_setEntry_self]
    · simp only [hpk, if_false, if_neg hpk]
      rw [addToIndexOp_lookup_ne p1 o _ path path hpk, lookupEntry_setEntry_self]
  have hres : (p1.set o st path ⟨T, fl, md⟩).res = Except.ok () := by
    unfold Provider.set
    simp only [h1, Bool.false_eq_true, if_false, henc, hz]
    by_cases hpk : path = indexKey <;> simp [hpk]
  refine ⟨hres, ?_⟩
  unfold Provider.get
  simp only [h2, Bool.false_eq_true, if_false]
  unfold zGet
  rw [hget, hlook]
  simp [hjson, hu, Provider.name]

/-- C2 witness: the fallback at a concrete non-envelope text. -/
theorem c2_witness :
    (Provider.set ⟨⟨"svc", false, false⟩, false⟩ honestOracle [] "k"
      ⟨"hello", [], ⟨"", "", []⟩⟩).res = Except.ok () ∧
    (Provider.get ⟨⟨"svc", true, false⟩, false⟩ honestOracle
      (Provider.set ⟨⟨"svc", false, false⟩, false⟩ honestOracle [] "k"
        ⟨"hello", [], ⟨"", "", []⟩⟩).native "k").res =
      Except.ok ⟨"hello", [], ⟨"keyring", "k", []⟩⟩ :=
  c2_plain_fallback_amended ⟨⟨"svc", false, false⟩, false⟩ ⟨⟨"svc", true, false⟩, false⟩
    honestOracle [] "k" "hello" [] ⟨"", "", []⟩ rfl rfl rfl rfl (by decide) rfl rfl

/-- C2 counterexample: the claim fails for a text T that itself parses
as a structured envelope.  Storing, under plain mode, the text
`T = marshalSecret ⟨"x", [], _⟩` and reading it back under structured
mode returns primary value `"x"`, not T — so "for any text T" is too
strong; the fallback applies only to texts that do not parse. -/
theorem c2_counterexample :
    (Provider.get ⟨⟨"svc", true, false⟩, false⟩ honestOracle
      (Provider.set ⟨⟨"svc", false, false⟩, false⟩ honestOracle [] "k"
        ⟨String.mk (marshalSecret ⟨"x", [], ⟨"", "", []⟩⟩), [], ⟨"", "", []⟩⟩).native
      "k").res =
      Except.ok ⟨"x", [], ⟨"keyring", "k", []⟩⟩ ∧
    "x" ≠ String.mk (marshalSecret ⟨"x", [], ⟨"", "", []⟩⟩) :=
  ⟨by decide, by decide⟩

/-- C8: index add is a no-op — the store is unchanged and only the one
index read is performed — when the key is already present (case-sensitive
exact string match, so the same key is never duplicated), and otherwise
appends the key at the end of the loaded index and persists; index
remove filters out all occurrences of the key and persists the result
unconditionally, even when the key was never present. -/
theorem c8_index_add_and_remove (p : Provider) (o : Oracle) (st : Native)
    (key : String) :
    (key ∈ loadedIndex o st →
      (p.addToIndexOp o st key).1 = st ∧
      (p.addToIndexOp o st key).2.1 = [NativeOp.get indexKey]) ∧
    (key ∉ loadedIndex o st → o.setErr indexKey = none →
      (p.addToIndexOp o st key).1 =
        setEntry st indexKey (marshalIndex (loadedIndex o st ++ [key])) ∧
      (p.addToIndexOp o st key).2.1 =
        [NativeOp.get indexKey, NativeOp.set indexKey]) ∧
    (p.removeFromIndexOp o st key).2.1 =
      [NativeOp.get indexKey, NativeOp.set indexKey] ∧
    (o.setErr indexKey = none →
      (p.removeFromIndexOp o st key).1 =
        setEntry st indexKey
          (marshalIndex ((loadedIndex o st).filter (fun k => decide (k ≠ key))))) := by
  refine ⟨?_, ?_, ?_, ?_⟩
  · intro hm
    unfold Provider.addToIndexOp
    simp only [loadIndexOp_spec]
    simp [hm]
  · intro hm hs
    unfold Provider.addToIndexOp
    simp only [loadIndexOp_spec, saveIndexOp_spec]
    simp [hm, hs]
  · unfold Provider.removeFromIndexOp
    simp only [loadIndexOp_spec, saveIndexOp_spec]
    simp
  · intro hs
    unfold Provider.removeFromIndexOp
    simp only [loadIndexOp_spec, saveIndexOp_spec]
    simp [hs]

/-- C8 witness: with a loaded index `["a", "b", "a"]`, adding the
present key `"a"` changes nothing; adding the absent key `"c"` appends
it; removing `"a"` filters out both occurrences and persists. -/
theorem c8_witness :
    (Provider.addToIndexOp ⟨⟨"svc", false, false⟩, false⟩ honestOracle
      [(indexKey, marshalIndex ["a", "b", "a"])] "a").1 =
      [(indexKey, marshalIndex ["a", "b", "a"])] ∧
    (Provider.addToIndexOp ⟨⟨"svc", false, false⟩, false⟩ honestOracle
      [(indexKey, marshalIndex ["a", "b", "a"])] "c").1 =
      setEntry [(indexKey, marshalIndex ["a", "b", "a"])] indexKey
        (marshalIndex ["a", "b", "a", "c"]) ∧
    (Provider.removeFromIndexOp ⟨⟨"svc", false, false⟩, false⟩ honestOracle
      [(indexKey, marshalIndex ["a", "b", "a"])] "a").1 =
      setEntry [(indexKey, marshalIndex ["a", "b", "a"])] indexKey
        (marshalIndex ["b"]) := by
  have h1 := c8_index_add_and_remove ⟨⟨"svc", false, false⟩, false⟩ honestOracle
    [(indexKey, marshalIndex ["a", "b", "a"])] "a"
  have h2 := c8_index_add_and_remove ⟨⟨"svc", false, false⟩, false⟩ honestOracle
    [(indexKey, marshalIndex ["a", "b", "a"])] "c"
  refine ⟨(h1.1 (by decide)).1, ?_, ?_⟩
  · have := (h2.2.1 (by decide) rfl).1
    rw [this]
    decide
  · have := h1.2.2.2 rfl
    rw [this]
    decide

/-- C1: when the native write (resp. a successful native delete) of the
caller's path succeeds, `Set` (resp. `Delete`) returns success even if
index maintenance fails; with a callback configured, the callback
invocations are exactly the load-phase failure (tagged `load` or
`unmarshal`, with its cause) followed by the save-phase failure (tagged
`save`, with its cause), each therefore delivered exactly once; with no
callback configured, the event list is empty — the failures are
silently dropped. -/
theorem c1_index_failures_isolated (p : Provider) (o : Oracle) (st : Native)
    (path : String) (s : Secret) (w : String)
    (hopen : p.closed = false) (hpk : path ≠ indexKey) :
    (o.setErr path = none →
      (p.set o st path s).res = Except.ok () ∧
      (p.set o st path s).events =
        (if p.config.onIndexError then
          loadFailureEvents o (setEntry st path
            (if p.config.jsonFormat then String.mk (marshalSecret s) else s.value)) ++
          (if path ∈ loadedIndex o (setEntry st path
              (if p.config.jsonFormat then String.mk (marshalSecret s) else s.value))
            then [] else saveFailureEvents o)
        else [])) ∧
    (o.delErr path = none → lookupEntry st path = some w →
      (p.delete o st path).res = Except.ok () ∧
      (p.delete o st path).events =
        (if p.config.onIndexError then
          loadFailureEvents o (removeEntry st path) ++ saveFailureEvents o
        else [])) := by
  constructor
  · intro hset
    have hz : zSet o st path
        (if p.config.jsonFormat then String.mk (marshalSecret s) else s.value) =
        .ok (setEntry st path
          (if p.config.jsonFormat then String.mk (marshalSecret s) else s.value)) := by
      unfold zSet
      rw [hset]
    unfold Provider.set Provider.addToIndexOp
    simp only [hopen, Bool.false_eq_true, if_false, hz, if_neg hpk,
      loadIndexOp_spec, saveIndexOp_spec]
    by_cases hm : path ∈ loadedIndex o (setEntry st path
        (if p.config.jsonFormat then String.mk (marshalSecret s) else s.value)) <;>
      by_cases hcb : p.config.onIndexError = true <;>
        simp [hm, hcb]
  · intro hdel hw
    have hz : zDel o st path = .ok (removeEntry st path) := by
      unfold zDel
      rw [hdel, hw]
    unfold Provider.delete Provider.removeFromIndexOp
    simp only [hopen, Bool.false_eq_true, if_false, hz, if_neg hpk,
      loadIndexOp_spec, saveIndexOp_spec]
    by_cases hcb : p.config.onIndexError = true <;> simp [hcb]

/-- C1 witness: with a callback configured and faults injected on the
reserved index entry only (read fails with `boom`, write fails with
`bang`), a `Set` and a `Delete` on an ordinary path both succeed and
each delivers exactly the two index failures, with their tags and
causes, to the callback. -/
theorem c1_witness :
    (Provider.set ⟨⟨"svc", false, true⟩, false⟩
      ⟨fun q => if q = indexKey then some (.other "boom") else none,
       fun q => if q = indexKey then some (.other "bang") else none,
       fun _ => none⟩
      [("k", "v")] "k" ⟨"w", [], ⟨"", "", []⟩⟩).res = Except.ok () ∧
    (Provider.set ⟨⟨"svc", false, true⟩, false⟩
      ⟨fun q => if q = indexKey then some (.other "boom") else none,
       fun q => if q = indexKey then some (.other "bang") else none,
       fun _ => none⟩
      [("k", "v")] "k" ⟨"w", [], ⟨"", "", []⟩⟩).events =
      [("load", .native (.other "boom")), ("save", .native (.other "bang"))] ∧
    (Provider.delete ⟨⟨"svc", false, true⟩, false⟩
      ⟨fun q => if q = indexKey then some (.other "boom") else none,
       fun q => if q = indexKey then some (.other "bang") else none,
       fun _ => none⟩
      [("k", "v")] "k").res = Except.ok () ∧
    (Provider.delete ⟨⟨"svc", false, true⟩, false⟩
      ⟨fun q => if q = indexKey then some (.other "boom") else none,
       fun q => if q = indexKey then some (.other "bang") else none,
       fun _ => none⟩
      [("k", "v")] "k").events =
      [("load", .native (.other "boom")), ("save", .native (.other "bang"))] := by
  have h := c1_index_failures_isolated ⟨⟨"svc", false, true⟩, false⟩
    ⟨fun q => if q = indexKey then some (.other "boom") else none,
     fun q => if q = indexKey then some (.other "bang") else none,
     fun _ => none⟩
    [("k", "v")] "k" ⟨"w", [], ⟨"", "", []⟩⟩ "v" rfl (by decide)
  have hs := h.1 (by decide)
  have hd := h.2 (by decide) (by decide)
  refine ⟨hs.1, ?_, hd.1, ?_⟩
  · rw [hs.2]; decide
  · rw [hd.2]; decide

/-! ### Reserved-key invariant machinery (C6) -/

/-- Whether an operation is a `Set` targeting the reserved index key —
the one way a caller can overwrite the persisted index entry itself. -/
def setsIndexKey : Op → Bool
  | .set path _ => decide (path = indexKey)
  | _ => false

theorem get_native_unchanged (p : Provider) (o : Oracle) (st : Native) (path : String) :
    (p.get o st path).native = st := by
  unfold Provider.get
  by_cases hc : p.closed = true
  · simp [hc]
  · rw [Bool.not_eq_true] at hc
    cases hz : zGet o st path with
    | error e => cases e <;> simp [hc, hz]
    | ok v => simp [hc, hz]

theorem existsOp_native_unchanged (p : Provider) (o : Oracle) (st : Native) (path : String) :
    (p.existsOp o st path).native = st := by
  unfold Provider.existsOp
  by_cases hc : p.closed = true
  · simp [hc]
  · rw [Bool.not_eq_true] at hc
    cases hz : zGet o st path with
    | error e => cases e <;> simp [hc, hz]
    | ok v => simp [hc, hz]

theorem list_native_unchanged (p : Provider) (o : Oracle) (st : Native) (pre : String) :
    (p.list o st pre).native = st := by
  unfold Provider.list
  by_cases hc : p.closed = true <;> simp [hc]

theorem decodedIndex_setEntry_marshal (st : Native) (ks : List String) :
    decodedIndex (setEntry st indexKey (marshalIndex ks)) = ks := by
  unfold decodedIndex
  simp only [lookupEntry_setEntry_self, unmarshalIndex_marshalIndex, Option.getD_some]

theorem decodedIndex_eq_of_lookup (st1 st2 : Native)
    (h : lookupEntry st1 indexKey = lookupEntry st2 indexKey) :
    decodedIndex st1 = decodedIndex st2 := by
  unfold decodedIndex
  rw [h]

theorem indexKey_notMem_loadedIndex (o : Oracle) (st : Native)
    (h : indexKey ∉ decodedIndex st) : indexKey ∉ loadedIndex o st := by
  rcases loadedIndex_eq_or_nil o st with he | he <;> rw [he]
  · exact h
  · simp

theorem addToIndexOp_inv (p : Provider) (o : Oracle) (st : Native) (key : String)
    (hk : key ≠ indexKey) (h : indexKey ∉ decodedIndex st) :
    indexKey ∉ decodedIndex (p.addToIndexOp o st key).1 := by
  unfold Provider.addToIndexOp
  simp only [loadIndexOp_spec, saveIndexOp_spec]
  by_cases hm : key ∈ loadedIndex o st
  · simpa [hm] using h
  · cases hs : o.setErr indexKey with
    | some e => simpa [hm, hs] using h
    | none =>
      simp only [hm, if_false, hs]
      rw [decodedIndex_setEntry_marshal]
      intro hmem
      rcases List.mem_append.mp hmem with h1 | h1
      · exact indexKey_notMem_loadedIndex o st h h1
      · simp at h1
        exact hk h1.symm

theorem removeFromIndexOp_inv (p : Provider) (o : Oracle) (st : Native) (key : String)
    (h : indexKey ∉ decodedIndex st) :
    indexKey ∉ decodedIndex (p.removeFromIndexOp o st key).1 := by
  unfold Provider.removeFromIndexOp
  simp only [loadIndexOp_spec, saveIndexOp_spec]
  cases hs : o.setErr indexKey with
  | some e => simpa [hs] using h
  | none =>
    simp only [hs]
    rw [decodedIndex_setEntry_marshal]
    intro hmem
    exact indexKey_notMem_loadedIndex o st h (List.mem_of_mem_filter hmem)

theorem set_preserves_inv (p : Provider) (o : Oracle) (st : Native)
    (path : String) (s : Secret)
    (hk : path ≠ indexKey) (h : indexKey ∉ decodedIndex st) :
    indexKey ∉ decodedIndex (p.set o st path s).native := by
  unfold Provider.set
  by_cases hc : p.closed = true
  · simpa [hc] using h
  · rw [Bool.not_eq_true] at hc
    cases hs : o.setErr path with
    | some e => simpa [hc, zSet, hs] using h
    | none =>
      have h1 : indexKey ∉ decodedIndex (setEntry st path
          (if p.config.jsonFormat then String.mk (marshalSecret s) else s.value)) := by
        rw [decodedIndex_eq_of_lookup _ st
          (lookupEntry_setEntry_ne st path _ indexKey (fun hh => hk hh.symm))]
        exact h
      simp only [hc, Bool.false_eq_true, if_false, zSet, hs, if_neg hk]
      exact addToIndexOp_inv p o _ path hk h1

theorem delete_preserves_inv (p : Provider) (o : Oracle) (st : Native) (path : String)
    (h : indexKey ∉ decodedIndex st) :
    indexKey ∉ decodedIndex (p.delete o st path).native := by
  unfold Provider.delete
  by_cases hc : p.closed = true
  · simpa [hc] using h
  · rw [Bool.not_eq_true] at hc
    cases hd : o.delErr path with
    | some e => cases e <;> simpa [hc, zDel, hd] using h
    | none =>
      cases hl : lookupEntry st path with
      | none => simpa [hc, zDel, hd, hl] using h
      | some w =>
        by_cases hk : path = indexKey
        · subst hk
          simp [hc, zDel, hd, hl, decodedIndex, lookupEntry_removeEntry_self]
        · have h1 : indexKey ∉ decodedIndex (removeEntry st path) := by
            rw [decodedIndex_eq_of_lookup _ st
              (lookupEntry_removeEntry_ne st path indexKey (fun hh => hk hh.symm))]
            exact h
          simp only [hc, Bool.false_eq_true, if_false, zDel, hd, hl, if_neg hk]
          exact removeFromIndexOp_inv p o _ path h1

theorem stepOp_preserves_inv (sigma : SysState) (x : Op × Oracle)
    (hx : setsIndexKey x.1 = false)
    (h : indexKey ∉ decodedIndex sigma.native) :
    indexKey ∉ decodedIndex (stepOp sigma x).native := by
  obtain ⟨op, o⟩ := x
  cases op with
  | get path => simpa [stepOp, get_native_unchanged] using h
  | exi path => simpa [stepOp, existsOp_native_unchanged] using h
  | list pre => simpa [stepOp, list_native_unchanged] using h
  | close => simpa [stepOp] using h
  | del path => exact delete_preserves_inv sigma.prov o sigma.native path h
  | set path s =>
    have hk : path ≠ indexKey := by simpa [setsIndexKey] using hx
    exact set_preserves_inv sigma.prov o sigma.native path s hk h

theorem runOps_preserves_inv (xs : List (Op × Oracle)) :
    ∀ sigma : SysState, indexKey ∉ decodedIndex sigma.native →
      (∀ x ∈ xs, setsIndexKey x.1 = false) →
      indexKey ∉ decodedIndex (runOps sigma xs).native := by
  induction xs with
  | nil =>
    intro sigma h _
    simpa [runOps] using h
  | cons x xs ih =>
    intro sigma h hall
    have hstep : runOps sigma (x :: xs) = runOps (stepOp sigma x) xs := by
      unfold runOps
      rw [List.foldl_cons]
    rw [hstep]
    exact ih (stepOp sigma x)
      (stepOp_preserves_inv sigma x (hall x (by simp)) h)
      (fun y hy => hall y (by simp [hy]))

theorem list_no_reserved_key (p : Provider) (o : Oracle) (st : Native) (pre : String)
    (l : List String) (h : indexKey ∉ decodedIndex st)
    (hr : (p.list o st pre).res = Except.ok l) : indexKey ∉ l := by
  by_cases hc : p.closed = true
  · unfold Provider.list at hr
    simp [hc] at hr
  · rw [Bool.not_eq_true] at hc
    rw [list_spec p o st pre hc] at hr
    simp only [Except.ok.injEq] at hr
    subst hr
    intro hmem
    exact indexKey_notMem_loadedIndex o st h (List.mem_of_mem_filter hmem)

/-- C6 (amended): in every sequence of provider operations starting from
a state whose index entry is absent, *in which no `Set` call targets the
reserved index key*, the persisted index never contains the reserved key
(the `Set`/`Delete` self-reference guards keep it out), and `List` never
returns the reserved key. -/
theorem c6_reserved_key_never_indexed (cfg : Config) (cl : Bool) (st0 : Native)
    (xs : List (Op × Oracle)) (o2 : Oracle) (pre : String) (l : List String)
    (h0 : lookupEntry st0 indexKey = none)
    (hxs : ∀ x ∈ xs, setsIndexKey x.1 = false) :
    indexKey ∉ decodedIndex (runOps ⟨⟨cfg, cl⟩, st0⟩ xs).native ∧
    (((runOps ⟨⟨cfg, cl⟩, st0⟩ xs).prov.list o2
        (runOps ⟨⟨cfg, cl⟩, st0⟩ xs).native pre).res = Except.ok l →
      indexKey ∉ l) := by
  have hi : indexKey ∉ decodedIndex st0 := by
    unfold decodedIndex
    rw [h0]
    simp
  have h1 := runOps_preserves_inv xs ⟨⟨cfg, cl⟩, st0⟩ hi hxs
  exact ⟨h1, fun hr => list_no_reserved_key _ o2 _ pre l h1 hr⟩

/-- C6 witness: a one-`Set` sequence on an ordinary path keeps the
reserved key out of the persisted index and out of `List`. -/
theorem c6_witness :
    indexKey ∉ decodedIndex (runOps ⟨⟨⟨"svc", false, false⟩, false⟩, []⟩
      [(Op.set "a" ⟨"v", [], ⟨"", "", []⟩⟩, honestOracle)]).native ∧
    indexKey ∉ ["a"] :=
  ⟨(c6_reserved_key_never_indexed ⟨"svc", false, false⟩ false []
      [(Op.set "a" ⟨"v", [], ⟨"", "", []⟩⟩, honestOracle)] honestOracle "" ["a"]
      rfl (by decide)).1,
   (c6_reserved_key_never_indexed ⟨"svc", false, false⟩ false []
      [(Op.set "a" ⟨"v", [], ⟨"", "", []⟩⟩, honestOracle)] honestOracle "" ["a"]
      rfl (by decide)).2 (by decide)⟩

/-- C6 counterexample: the claim as stated — over *every* sequence of
provider operations from an absent index entry — is false.  A caller
`Set` on the reserved path itself (plain mode) stores caller text as the
index entry; choosing that text as the encoding of `[indexKey]` makes
the subsequent `List` return the reserved key. -/
theorem c6_counterexample :
    lookupEntry ([] : Native) indexKey = none ∧
    ((runOps ⟨⟨⟨"svc", false, false⟩, false⟩, []⟩
        [(Op.set indexKey ⟨marshalIndex [indexKey], [], ⟨"", "", []⟩⟩,
          honestOracle)]).prov.list honestOracle
      (runOps ⟨⟨⟨"svc", false, false⟩, false⟩, []⟩
        [(Op.set indexKey ⟨marshalIndex [indexKey], [], ⟨"", "", []⟩⟩,
          honestOracle)]).native "").res = Except.ok [indexKey] ∧
    indexKey ∈ [indexKey] :=
  ⟨by decide, by decide, by decide⟩

end Keyring
